import Mathlib

/-
  Verification of the brotli-go decompression API (dec/decode.h).

  The repository slice contains the public C header `src/dec/decode.h` only;
  the decoder implementation (decode.c and friends) is not part of the slice.
  The definitions below therefore embed the API contract: the result
  enumeration and function signatures are taken from the header, and the
  behaviour of the streaming engine is modelled from the specification
  (uncompressed meta-blocks with last/empty markers and 16-bit declared
  lengths, a resumable phase machine that pauses on exhausted input or
  output, terminal Done/Error states, and the documented cursor updates).
-/

/-- The four-valued result enumeration `BrotliResult` of dec/decode.h:
ERROR = 0, SUCCESS = 1, NEEDS_MORE_INPUT = 2, NEEDS_MORE_OUTPUT = 3. -/
inductive BrotliResult
  | error
  | success
  | needsMoreInput
  | needsMoreOutput
  deriving DecidableEq

/-- The integer value each `BrotliResult` constructor has in dec/decode.h. -/
def resultCode : BrotliResult → Nat
  | .error => 0
  | .success => 1
  | .needsMoreInput => 2
  | .needsMoreOutput => 3

/-- Modelled from the spec: the resumable micro-position of the decoder state
machine (DecoderStateMachine, spec section 4.7), restricted to the uncompressed
meta-block stream shapes the spec describes: waiting for a meta-block header
byte, waiting for either byte of the 16-bit declared length, copying the
remaining raw bytes of the current meta-block (`copyBytes islast n` means
`n + 1` raw bytes remain, so every phase value is a well-formed suspension
point), and the terminal Done/Error states. -/
inductive Phase
  | blockHeader
  | blockLen1 (islast : Bool)
  | blockLen2 (islast : Bool) (lo : Nat)
  | copyBytes (islast : Bool) (remainingMinusOne : Nat)
  | done
  | error
  deriving DecidableEq

/-- Whether a phase is terminal (Done or Error), after which the session may
not be used again. -/
def terminalPhase : Phase → Bool
  | .done => true
  | .error => true
  | _ => false

/-- The observable outcome of one decode call: the resumed phase, how many
input bytes were consumed, the decoded bytes produced, and the result code. -/
structure RunOut where
  phase : Phase
  consumed : Nat
  output : List Nat
  result : BrotliResult
  deriving DecidableEq

/-- Account for one more consumed input byte in a call outcome. -/
def consume1 (t : RunOut) : RunOut := { t with consumed := t.consumed + 1 }

/-- Account for one more produced output byte in a call outcome. -/
def emit (b : Nat) (t : RunOut) : RunOut := { t with output := b :: t.output }

@[simp] theorem consume1_phase (t : RunOut) : (consume1 t).phase = t.phase := rfl

@[simp] theorem consume1_consumed (t : RunOut) : (consume1 t).consumed = t.consumed + 1 := rfl

@[simp] theorem consume1_output (t : RunOut) : (consume1 t).output = t.output := rfl

@[simp] theorem consume1_result (t : RunOut) : (consume1 t).result = t.result := rfl

@[simp] theorem emit_phase (b : Nat) (t : RunOut) : (emit b t).phase = t.phase := rfl

@[simp] theorem emit_consumed (b : Nat) (t : RunOut) : (emit b t).consumed = t.consumed := rfl

@[simp] theorem emit_output (b : Nat) (t : RunOut) : (emit b t).output = b :: t.output := rfl

@[simp] theorem emit_result (b : Nat) (t : RunOut) : (emit b t).result = t.result := rfl

/-- Modelled from the spec: the core resumable decode loop of the engine
(decode.c is absent from the slice).  It advances the phase machine as far as
the given input bytes and output space allow.  A meta-block header byte packs
ISLAST (bit 0) and ISEMPTY (bit 1); any higher bit set is stream corruption.
A non-empty meta-block carries a 16-bit little-endian declared length followed
by that many raw bytes, a declared length of zero being corruption.  Running
out of input pauses with NeedsMoreInput, running out of output space mid-copy
pauses with NeedsMoreOutput, both without losing position; reaching the
end of the last meta-block with input left over is corruption. -/
def run : Phase → List Nat → Nat → RunOut
  | .error, _, _ => ⟨.error, 0, [], .error⟩
  | .done, [], _ => ⟨.done, 0, [], .success⟩
  | .done, _ :: _, _ => ⟨.error, 0, [], .error⟩
  | .blockHeader, [], _ => ⟨.blockHeader, 0, [], .needsMoreInput⟩
  | .blockHeader, 0 :: rest, s => consume1 (run (.blockLen1 false) rest s)
  | .blockHeader, 1 :: rest, s => consume1 (run (.blockLen1 true) rest s)
  | .blockHeader, 2 :: rest, s => consume1 (run .blockHeader rest s)
  | .blockHeader, 3 :: rest, s => consume1 (run .done rest s)
  | .blockHeader, (_ + 4) :: _, _ => ⟨.error, 1, [], .error⟩
  | .blockLen1 islast, [], _ => ⟨.blockLen1 islast, 0, [], .needsMoreInput⟩
  | .blockLen1 islast, b :: rest, s => consume1 (run (.blockLen2 islast b) rest s)
  | .blockLen2 islast lo, [], _ => ⟨.blockLen2 islast lo, 0, [], .needsMoreInput⟩
  | .blockLen2 islast lo, hi :: rest, s =>
      match lo + 256 * hi with
      | 0 => ⟨.error, 1, [], .error⟩
      | len + 1 => consume1 (run (.copyBytes islast len) rest s)
  | .copyBytes islast n, [], _ => ⟨.copyBytes islast n, 0, [], .needsMoreInput⟩
  | .copyBytes islast n, _ :: _, 0 => ⟨.copyBytes islast n, 0, [], .needsMoreOutput⟩
  | .copyBytes true 0, b :: rest, s + 1 => emit b (consume1 (run .done rest s))
  | .copyBytes false 0, b :: rest, s + 1 => emit b (consume1 (run .blockHeader rest s))
  | .copyBytes islast (n + 1), b :: rest, s + 1 =>
      emit b (consume1 (run (.copyBytes islast n) rest s))

/-- The per-session decoder state (`BrotliState`), reduced to the resumable
phase of the model. -/
structure BrotliState where
  phase : Phase
  deriving DecidableEq

/-- Modelled from the spec: one call to the streaming entry point
`BrotliDecompressStream` of dec/decode.h, on a session in state `st`, with
`input` the available input bytes and `s` the available output space.
A call on a session already in a terminal phase is invalid usage and reports
an error without touching the session; otherwise the core loop runs. -/
def BrotliDecompressStream (st : BrotliState) (input : List Nat) (s : Nat) :
    BrotliState × RunOut :=
  if terminalPhase st.phase then (st, ⟨st.phase, 0, [], .error⟩)
  else
    let t := run st.phase input s
    (⟨t.phase⟩, t)

/-- A call never consumes more input bytes than were supplied. -/
theorem run_consumed_le_length (phase : Phase) (xs : List Nat) (s : Nat) :
    (run phase xs s).consumed ≤ xs.length := by
  induction phase, xs, s using run.induct <;> simp_all [run]

/-- A call never produces more bytes than it consumes (raw meta-block bytes
come one-for-one from the input). -/
theorem run_output_le_consumed (phase : Phase) (xs : List Nat) (s : Nat) :
    (run phase xs s).output.length ≤ (run phase xs s).consumed := by
  induction phase, xs, s using run.induct <;> simp_all [run] <;> omega

/-- A call never produces more bytes than the available output space. -/
theorem run_output_le_space (phase : Phase) (xs : List Nat) (s : Nat) :
    (run phase xs s).output.length ≤ s := by
  induction phase, xs, s using run.induct <;> simp_all [run]

/-- When the engine pauses for more input, all supplied input was consumed. -/
theorem run_nmi_consumed (phase : Phase) (xs : List Nat) (s : Nat)
    (h : (run phase xs s).result = .needsMoreInput) :
    (run phase xs s).consumed = xs.length := by
  induction phase, xs, s using run.induct <;> simp_all [run]

/-- When the engine reports success, all supplied input was consumed. -/
theorem run_success_consumed (phase : Phase) (xs : List Nat) (s : Nat)
    (h : (run phase xs s).result = .success) :
    (run phase xs s).consumed = xs.length := by
  induction phase, xs, s using run.induct <;> simp_all [run]

/-- With output space at least the input length the engine never pauses for
output (each produced byte consumes an input byte in this model). -/
theorem run_no_nmo (phase : Phase) (xs : List Nat) (s : Nat) (h : xs.length ≤ s) :
    (run phase xs s).result ≠ .needsMoreOutput := by
  induction phase, xs, s using run.induct <;> simp_all [run] <;> apply_assumption <;> omega

/-- A pause result always leaves the engine in a non-terminal, resumable
phase. -/
theorem run_pause_nonterminal (phase : Phase) (xs : List Nat) (s : Nat)
    (h : (run phase xs s).result = .needsMoreInput ∨
         (run phase xs s).result = .needsMoreOutput) :
    terminalPhase (run phase xs s).phase = false := by
  induction phase, xs, s using run.induct <;> simp_all [run, terminalPhase]

/-- A call on a non-terminal phase with no input pauses for input, leaving
the phase untouched and consuming and producing nothing. -/
theorem run_empty (phase : Phase) (s : Nat) (h : terminalPhase phase = false) :
    run phase [] s = ⟨phase, 0, [], .needsMoreInput⟩ := by
  cases phase <;> simp_all [run, terminalPhase]

/-- A call on a non-terminal phase with input available and output space
available always makes forward progress: at least one byte is consumed. -/
theorem run_progress (phase : Phase) (xs : List Nat) (s : Nat)
    (hp : terminalPhase phase = false) (hx : xs ≠ []) (hs : 0 < s) :
    0 < (run phase xs s).consumed := by
  induction phase, xs, s using run.induct <;> simp_all [run, terminalPhase]

@[simp] theorem runOut_eta (u : RunOut) :
    (⟨u.phase, u.consumed, u.output, u.result⟩ : RunOut) = u := rfl

/-- Continuing a paused call outcome `t` with further input `ys`, out of the
same output pool of original size `s`: the composed outcome of feeding the
input in two pieces.  Success with leftover input, and any terminal outcome,
ignore the second piece. -/
def runCont (t : RunOut) (ys : List Nat) (s : Nat) : RunOut :=
  match t.result with
  | .needsMoreInput =>
      let u := run t.phase ys (s - t.output.length)
      ⟨u.phase, t.consumed + u.consumed, t.output ++ u.output, u.result⟩
  | .success => if ys.isEmpty then t else ⟨.error, t.consumed, t.output, .error⟩
  | _ => t

@[simp] theorem runCont_nmi0 (p : Phase) (ys : List Nat) (s : Nat) :
    runCont ⟨p, 0, [], .needsMoreInput⟩ ys s = run p ys s := by
  simp [runCont]

@[simp] theorem runCont_nmo (p : Phase) (c : Nat) (o : List Nat) (ys : List Nat) (s : Nat) :
    runCont ⟨p, c, o, .needsMoreOutput⟩ ys s = ⟨p, c, o, .needsMoreOutput⟩ := rfl

@[simp] theorem runCont_err (p : Phase) (c : Nat) (o : List Nat) (ys : List Nat) (s : Nat) :
    runCont ⟨p, c, o, .error⟩ ys s = ⟨p, c, o, .error⟩ := rfl

@[simp] theorem runCont_success (p : Phase) (c : Nat) (o : List Nat) (ys : List Nat) (s : Nat) :
    runCont ⟨p, c, o, .success⟩ ys s =
      if ys.isEmpty then ⟨p, c, o, .success⟩ else ⟨.error, c, o, .error⟩ := rfl

@[simp] theorem runCont_consume1 (t : RunOut) (ys : List Nat) (s : Nat) :
    runCont (consume1 t) ys s = consume1 (runCont t ys s) := by
  obtain ⟨p, c, o, r⟩ := t
  cases r <;> simp [runCont, consume1] <;> first | omega | (split <;> simp)

@[simp] theorem runCont_emit (b : Nat) (t : RunOut) (ys : List Nat) (s : Nat) :
    runCont (emit b t) ys (s + 1) = emit b (runCont t ys s) := by
  obtain ⟨p, c, o, r⟩ := t
  cases r <;> simp [runCont, emit] <;> try split <;> simp

/-- Feeding the input in two consecutive pieces is the same as feeding it in
one piece: the engine is a function of the concatenated input stream. -/
theorem run_append (phase : Phase) (xs : List Nat) (s : Nat) : ∀ ys : List Nat,
    run phase (xs ++ ys) s = runCont (run phase xs s) ys s := by
  induction phase, xs, s using run.induct <;> intro ys <;>
    simp_all [run, List.cons_append] <;> cases ys <;> simp_all [run]

/-- When the output space is at least the input length on both sides, the
exact amount of extra output space is irrelevant: the model never pauses for
output, so the whole outcome agrees. -/
theorem run_space_irrel : ∀ (xs : List Nat) (phase : Phase) (s t : Nat),
    xs.length ≤ s → xs.length ≤ t → run phase xs t = run phase xs s := by
  intro xs
  induction xs with
  | nil => intro phase s t _ _; cases phase <;> simp [run]
  | cons b rest ih =>
    intro phase s t hs ht
    simp only [List.length_cons] at hs ht
    obtain ⟨s', rfl⟩ : ∃ s', s = s' + 1 := ⟨s - 1, by omega⟩
    obtain ⟨t', rfl⟩ : ∃ t', t = t' + 1 := ⟨t - 1, by omega⟩
    have hrs : rest.length ≤ s' := by omega
    have hrt : rest.length ≤ t' := by omega
    cases phase with
    | error => rfl
    | done => rfl
    | blockHeader =>
      rcases b with _ | _ | _ | _ | b <;> simp only [run] <;>
        rw [ih _ (s' + 1) (t' + 1) (by omega) (by omega)]
    | blockLen1 islast =>
      simp only [run]
      rw [ih _ (s' + 1) (t' + 1) (by omega) (by omega)]
    | blockLen2 islast lo =>
      cases hl : lo + 256 * b with
      | zero => simp only [run, hl]
      | succ len =>
        simp only [run, hl]
        rw [ih _ (s' + 1) (t' + 1) (by omega) (by omega)]
    | copyBytes islast n =>
      cases islast <;> cases n <;> simp only [run] <;> rw [ih _ s' t' hrs hrt]

/-- Modelled from the spec: a conforming encoder for the modelled stream
shape (compression itself is out of scope for the repository, spec section 1).
It packages the data into uncompressed meta-blocks of at most 65535 bytes,
each with its 16-bit little-endian declared length, marks the final
meta-block ISLAST, and encodes empty data as a single empty last meta-block. -/
def encode (data : List Nat) : List Nat :=
  if data.isEmpty then [3]
  else if data.length ≤ 65535 then
    1 :: data.length % 256 :: data.length / 256 :: data
  else
    0 :: 255 :: 255 :: (data.take 65535 ++ encode (data.drop 65535))
termination_by data.length
decreasing_by simp_all [List.length_drop]; omega

/-- Running the raw-copy phase over exactly the declared number of bytes
copies them to the output verbatim and hands over to the follow-up phase
(done for the last meta-block, the next block header otherwise). -/
theorem run_copy_chunk : ∀ (chunk : List Nat) (islast : Bool) (rest : List Nat) (s n : Nat),
    chunk.length = n + 1 → chunk.length ≤ s →
    run (.copyBytes islast n) (chunk ++ rest) s =
      ⟨(run (if islast then Phase.done else Phase.blockHeader) rest (s - chunk.length)).phase,
       chunk.length + (run (if islast then Phase.done else Phase.blockHeader) rest (s - chunk.length)).consumed,
       chunk ++ (run (if islast then Phase.done else Phase.blockHeader) rest (s - chunk.length)).output,
       (run (if islast then Phase.done else Phase.blockHeader) rest (s - chunk.length)).result⟩ := by
  intro chunk
  induction chunk with
  | nil => intro islast rest s n h hs; simp at h
  | cons a chunk' ih =>
    intro islast rest s n h hs
    simp only [List.length_cons] at h hs
    obtain ⟨s', rfl⟩ : ∃ s', s = s' + 1 := ⟨s - 1, by omega⟩
    cases chunk' with
    | nil =>
      simp only [List.length_nil] at h hs
      obtain rfl : n = 0 := by omega
      cases islast <;> simp [run, emit, consume1, Nat.add_comm]
    | cons c cs =>
      simp only [List.length_cons] at h hs
      obtain ⟨n', rfl⟩ : ∃ n', n = n' + 1 := ⟨n - 1, by omega⟩
      have hlen : (c :: cs).length = n' + 1 := by simpa using h
      have hs' : (c :: cs).length ≤ s' := by simp only [List.length_cons] at hs ⊢; omega
      have key := ih islast rest s' n' hlen hs'
      cases islast <;>
        (simp only [List.cons_append] at key
         simp only [List.cons_append, run]
         simp only [List.append_eq, List.cons_append]
         rw [key]
         simp [emit, consume1, Nat.succ_sub_succ]
         try omega)

/-- Decoding an encoded stream in one call with enough output space succeeds,
consumes the whole stream and reproduces the original data exactly. -/
theorem decode_encode : ∀ (data : List Nat), ∀ s : Nat, data.length ≤ s →
    run .blockHeader (encode data) s = ⟨.done, (encode data).length, data, .success⟩ := by
  intro data
  induction data using encode.induct with
  | case1 data h =>
    obtain rfl : data = [] := by simpa [List.isEmpty_iff] using h
    intro s hs
    have e : encode [] = [3] := by rw [encode]; norm_num
    rw [e]
    simp [run, consume1]
  | case2 data h1 h2 =>
    intro s hs
    have e : encode data = 1 :: data.length % 256 :: data.length / 256 :: data := by
      rw [encode]; simp [h1, h2]
    obtain ⟨len, hlen⟩ : ∃ len, data.length = len + 1 := by
      rcases data with _ | ⟨x, xs⟩
      · simp at h1
      · exact ⟨xs.length, by simp⟩
    have hmod : data.length % 256 + 256 * (data.length / 256) = len + 1 := by
      rw [Nat.mod_add_div]; exact hlen
    have hc := run_copy_chunk data true [] s len hlen (by omega)
    rw [e]
    simp only [run, hmod]
    rw [List.append_nil] at hc
    rw [hc]
    simp [run, emit, consume1, e, hlen]
  | case3 data h1 h2 ih =>
    intro s hs
    have e : encode data = 0 :: 255 :: 255 :: (data.take 65535 ++ encode (data.drop 65535)) := by
      rw [encode]; simp [h1, h2]
    have hlen2 : ¬ data.length ≤ 65535 := h2
    have htake : (data.take 65535).length = 65534 + 1 := by
      simp [List.length_take]; omega
    have hm : (255 : Nat) + 256 * 255 = 65534 + 1 := by norm_num
    have hc := run_copy_chunk (data.take 65535) false (encode (data.drop 65535)) s 65534
      htake (by omega)
    have hu := ih (s - 65535) (by simp [List.length_drop]; omega)
    have h65 : (65534 : Nat) + 1 = 65535 := by norm_num
    have hif : (if false = true then Phase.done else Phase.blockHeader) = Phase.blockHeader := rfl
    rw [e]
    simp only [run, hm]
    rw [hc, htake, h65, hif, hu]
    simp [consume1, List.take_append_drop, List.length_append, htake]

/-- Modelled from the spec: the caller loop that feeds the compressed bytes
to the streaming entry point piece by piece, giving each call an output
buffer as large as the piece, and concatenates the outputs.  It keeps
calling while the engine asks for more input and stops on any other
result. -/
def decodeChunks : BrotliState → List (List Nat) → BrotliState × List Nat × BrotliResult
  | st, [] => (st, [], .needsMoreInput)
  | st, c :: cs =>
      match BrotliDecompressStream st c c.length with
      | (st', t) =>
        if t.result = .needsMoreInput then
          match decodeChunks st' cs with
          | (st'', o, r) => (st'', t.output ++ o, r)
        else (st', t.output, t.result)

/-- If decoding the concatenation of the pieces in one call succeeds with
output `out`, then feeding the pieces one call at a time produces exactly the
same output and also ends in Success. -/
theorem decodeChunks_success : ∀ (pieces : List (List Nat)) (phase : Phase) (out : List Nat),
    terminalPhase phase = false →
    run phase pieces.flatten pieces.flatten.length =
      ⟨.done, pieces.flatten.length, out, .success⟩ →
    decodeChunks ⟨phase⟩ pieces = (⟨.done⟩, out, .success) := by
  intro pieces
  induction pieces with
  | nil =>
    intro phase out hnt hrun
    simp only [List.flatten_nil, List.length_nil] at hrun
    rw [run_empty phase 0 hnt] at hrun
    simp at hrun
  | cons c cs ih =>
    intro phase out hnt hrun
    simp only [List.flatten_cons] at hrun
    rw [run_append] at hrun
    set s := (c ++ cs.flatten).length with hs_def
    set t := run phase c s with ht_def
    have hslen : s = c.length + cs.flatten.length := by
      rw [hs_def, List.length_append]
    cases htr : t.result with
    | error =>
      simp only [runCont, htr] at hrun
      rw [hrun] at htr
      simp at htr
    | needsMoreOutput =>
      simp only [runCont, htr] at hrun
      rw [hrun] at htr
      simp at htr
    | success =>
      simp only [runCont, htr] at hrun
      cases hj : cs.flatten.isEmpty with
      | false => simp [hj] at hrun
      | true =>
        simp only [hj, if_true] at hrun
        have hcall : run phase c c.length = t :=
          run_space_irrel c phase s c.length (by omega) (le_refl _)
        simp [decodeChunks, BrotliDecompressStream, hnt, hcall, hrun]
    | needsMoreInput =>
      simp only [runCont, htr] at hrun
      set u := run t.phase cs.flatten (s - t.output.length) with hu_def
      simp only [RunOut.mk.injEq] at hrun
      obtain ⟨hu1, hu2, hu3, hu4⟩ := hrun
      have htc : t.consumed = c.length := by
        rw [ht_def]
        exact run_nmi_consumed phase c s (by rw [← ht_def]; exact htr)
      have hto : t.output.length ≤ c.length := by
        calc t.output.length ≤ t.consumed := by
              rw [ht_def]; exact run_output_le_consumed phase c s
          _ = c.length := htc
      have huc : u.consumed = cs.flatten.length := by omega
      have hu_eq : run t.phase cs.flatten cs.flatten.length = u := by
        rw [hu_def]
        exact run_space_irrel cs.flatten t.phase (s - t.output.length) cs.flatten.length
          (by omega) (le_refl _)
      have hfix : u = ⟨.done, cs.flatten.length, u.output, .success⟩ := by
        rw [← hu1, ← huc, ← hu4]
      have hnt' : terminalPhase t.phase = false := by
        rw [ht_def]
        exact run_pause_nonterminal phase c s (Or.inl (by rw [← ht_def]; exact htr))
      have hrec := ih t.phase u.output hnt' (hu_eq.trans hfix)
      have hcall : run phase c c.length = t :=
        run_space_irrel c phase s c.length (by omega) (le_refl _)
      simp [decodeChunks, BrotliDecompressStream, hnt, hcall, htr, hrec, ← hu3]

@[simp] theorem brotliState_eta (st : BrotliState) : (⟨st.phase⟩ : BrotliState) = st := rfl

/-- The five caller-owned cursors and counters of the buffer-streaming API:
remaining input length, input cursor, remaining output space, output cursor,
and the running total of output bytes. -/
structure StreamCursors where
  available_in : Nat
  next_in : Nat
  available_out : Nat
  next_out : Nat
  total_out : Nat
  deriving DecidableEq

/-- Modelled from the spec: `BrotliDecompressStream` at the level of the
caller's buffers and cursors, as documented in dec/decode.h lines 105-146:
the engine reads from the input buffer at `next_in` (at most `available_in`
bytes), writes at most `available_out` bytes, and on return `available_in`
is decremented by the bytes consumed with `next_in` incremented by the same
amount, `available_out`/`next_out` likewise for bytes written, and
`total_out` is summed with the bytes written. -/
def BrotliDecompressStreamCall (buf : List Nat) (cur : StreamCursors) (st : BrotliState) :
    StreamCursors × BrotliState × List Nat × BrotliResult :=
  let t := (BrotliDecompressStream st ((buf.drop cur.next_in).take cur.available_in)
      cur.available_out).2
  ({ available_in := cur.available_in - t.consumed,
     next_in := cur.next_in + t.consumed,
     available_out := cur.available_out - t.output.length,
     next_out := cur.next_out + t.output.length,
     total_out := cur.total_out + t.output.length },
   (BrotliDecompressStream st ((buf.drop cur.next_in).take cur.available_in)
      cur.available_out).1,
   t.output, t.result)

/-- Modelled from the spec: `BrotliDecompressedSize` of dec/decode.h
(lines 55-62); the implementation is absent from the slice.  It reads the
declared decompressed size from the meta-block headers without decoding, and
only succeeds when the stream is a single meta-block (an empty last block, or
one uncompressed last block carrying its declared length), or an
uncompressed non-last meta-block followed by an empty last one; any other
shape fails (`none`, the C function returning 0). -/
def BrotliDecompressedSize (encoded : List Nat) : Option Nat :=
  match encoded with
  | [3] => some 0
  | 1 :: lo :: hi :: body =>
      if lo + 256 * hi ≠ 0 ∧ body.length = lo + 256 * hi then some (lo + 256 * hi)
      else none
  | 0 :: lo :: hi :: rest =>
      if lo + 256 * hi ≠ 0 ∧ rest.length = lo + 256 * hi + 1 ∧
          rest.drop (lo + 256 * hi) = [3] then some (lo + 256 * hi)
      else none
  | _ => none

/-- The two failure kinds of copy-command validation (spec section 4.6). -/
inductive CopyError
  | invalidLength
  | invalidDistance
  deriving DecidableEq

/-- Modelled from the spec: the copy-command validation of the RingBuffer /
copy engine (spec sections 4.5-4.6; the implementation is absent from the
slice).  A copy must have a non-zero length and a distance `d` with
`1 ≤ d ≤ min(bytesProducedSoFar, windowCapacity) + dictionaryRange`;
distances within `min(produced, capacity)` resolve in the window, the next
`dictionaryRange` values resolve in the static dictionary, and anything
beyond is an invalid distance. -/
def validateCopy (distance len produced windowCap dictRange : Nat) :
    Except CopyError Unit :=
  if len = 0 then .error .invalidLength
  else if distance = 0 then .error .invalidDistance
  else if distance ≤ min produced windowCap + dictRange then .ok ()
  else .error .invalidDistance

/-- Modelled from the spec: the deprecated `BrotliDecompressBufferStreaming`
of dec/decode.h (lines 105-139).  It drives the same engine, but its result
codes are only failure / success / call-again-with-more-input: insufficient
output space "always results in an error", and a final call (`finish`) that
still wants input is a truncation failure.  The header documents that it
always consumes all input unless an error occurs. -/
def BrotliDecompressBufferStreaming (st : BrotliState) (input : List Nat) (finish : Bool)
    (s : Nat) : BrotliState × RunOut :=
  let st' := (BrotliDecompressStream st input s).1
  let t := (BrotliDecompressStream st input s).2
  match t.result with
  | .needsMoreOutput => (⟨.error⟩, ⟨.error, t.consumed, t.output, .error⟩)
  | .needsMoreInput =>
      if finish then (⟨.error⟩, ⟨.error, t.consumed, t.output, .error⟩) else (st', t)
  | _ => (st', t)

/-- A session for the deprecated callback streaming API: the decoder state
plus whether further calls are still permitted (dec/decode.h lines 83-94:
after a call returning 0 or 1, or any call with finish set, no more calls
may be made). -/
structure StreamingSession where
  state : BrotliState
  allowed : Bool
  deriving DecidableEq

/-- Modelled from the spec: the deprecated `BrotliDecompressStreaming` of
dec/decode.h (lines 76-103), with callback I/O: the output callback must
always accept all output, so the engine gets output space for everything the
input can produce, and the integer result is 0 (failure), 1 (success and
done) or 2 (call again with more input).  A call on a session that no longer
permits calls fails. -/
def BrotliDecompressStreaming (sess : StreamingSession) (input : List Nat) (finish : Bool) :
    StreamingSession × List Nat × Nat :=
  if sess.allowed then
    let st' := (BrotliDecompressBufferStreaming sess.state input finish input.length).1
    let t := (BrotliDecompressBufferStreaming sess.state input finish input.length).2
    (⟨st', if finish = false ∧ t.result = .needsMoreInput then true else false⟩,
     t.output, resultCode t.result)
  else (⟨sess.state, false⟩, [], 0)

/-- One memory request the engine makes through its allocator: which
allocation function it went through, the caller's opaque pointer passed
along, and the requested size. -/
structure AllocCall where
  funcId : Nat
  userData : Nat
  size : Nat
  deriving DecidableEq

/-- The default allocator pair used when the caller passes null for both
hooks (modelled as a fixed non-null function id). -/
def defaultAllocId : Nat := 1

/-- The default free function used when the caller passes null for both
hooks. -/
def defaultFreeId : Nat := 1

/-- The allocator configuration a created decoder instance carries: function
pointers are modelled as numeric ids with 0 the null pointer. -/
structure DecoderHandle where
  allocFunc : Nat
  freeFunc : Nat
  userData : Nat
  deriving DecidableEq

/-- Modelled from the spec: `BrotliCreateState` of dec/decode.h
(lines 45-50).  `alloc_func` and `free_func` must be both zero or both
non-zero; when both are zero the default allocators are used, and the opaque
parameter is stored to be passed to every allocator call.  A mixed pair is
invalid and creation fails. -/
def BrotliCreateState (allocFunc freeFunc userData : Nat) : Option DecoderHandle :=
  if allocFunc = 0 ∧ freeFunc = 0 then some ⟨defaultAllocId, defaultFreeId, userData⟩
  else if allocFunc ≠ 0 ∧ freeFunc ≠ 0 then some ⟨allocFunc, freeFunc, userData⟩
  else none

/-- One allocation performed by the engine through the handle's allocator:
it always goes through the stored function with the stored opaque pointer. -/
def handleAlloc (h : DecoderHandle) (size : Nat) : AllocCall :=
  ⟨h.allocFunc, h.userData, size⟩

/-- The trace of allocator calls the engine performs for a list of requested
sizes. -/
def handleAllocs (h : DecoderHandle) (sizes : List Nat) : List AllocCall :=
  sizes.map (handleAlloc h)

/-- One free the engine performs through its allocator pair: which free
function it went through, the caller's opaque pointer passed along, and the
block being released. -/
structure FreeCall where
  funcId : Nat
  userData : Nat
  ptr : Nat
  deriving DecidableEq

/-- One deallocation performed by the engine through the handle's allocator
pair: it always goes through the stored free function with the stored opaque
pointer. -/
def handleFree (h : DecoderHandle) (ptr : Nat) : FreeCall :=
  ⟨h.freeFunc, h.userData, ptr⟩

/-- The trace of free calls the engine performs for a list of released
blocks. -/
def handleFrees (h : DecoderHandle) (ptrs : List Nat) : List FreeCall :=
  ptrs.map (handleFree h)

/-- C1: every call to the streaming entry point BrotliDecompressStream on a
live (non-terminal) session returns exactly one of the four results Error,
Success, NeedsMoreInput, NeedsMoreOutput, and the two Needs* results are
recoverable pause signals: they leave the session in a non-terminal state on
which calling again is valid, rather than a terminal error state. -/
theorem brotliDecompressStream_result_taxonomy (st : BrotliState) (input : List Nat) (s : Nat)
    (h : terminalPhase st.phase = false) :
    ((BrotliDecompressStream st input s).2.result = .error ∨
     (BrotliDecompressStream st input s).2.result = .success ∨
     (BrotliDecompressStream st input s).2.result = .needsMoreInput ∨
     (BrotliDecompressStream st input s).2.result = .needsMoreOutput) ∧
    (((BrotliDecompressStream st input s).2.result = .needsMoreInput ∨
      (BrotliDecompressStream st input s).2.result = .needsMoreOutput) →
      terminalPhase (BrotliDecompressStream st input s).1.phase = false) := by
  constructor
  · cases hr : (BrotliDecompressStream st input s).2.result <;> simp
  · intro hp
    simp only [BrotliDecompressStream, h, Bool.false_eq_true, if_false] at hp ⊢
    exact run_pause_nonterminal st.phase input s hp

theorem brotliDecompressStream_result_taxonomy_witness :
    terminalPhase (BrotliState.mk .blockHeader).phase = false ∧
    (((BrotliDecompressStream ⟨.blockHeader⟩ [3] 0).2.result = .error ∨
      (BrotliDecompressStream ⟨.blockHeader⟩ [3] 0).2.result = .success ∨
      (BrotliDecompressStream ⟨.blockHeader⟩ [3] 0).2.result = .needsMoreInput ∨
      (BrotliDecompressStream ⟨.blockHeader⟩ [3] 0).2.result = .needsMoreOutput) ∧
     (((BrotliDecompressStream ⟨.blockHeader⟩ [3] 0).2.result = .needsMoreInput ∨
       (BrotliDecompressStream ⟨.blockHeader⟩ [3] 0).2.result = .needsMoreOutput) →
       terminalPhase (BrotliDecompressStream ⟨.blockHeader⟩ [3] 0).1.phase = false)) :=
  ⟨by decide, brotliDecompressStream_result_taxonomy ⟨.blockHeader⟩ [3] 0 (by decide)⟩

/-- C4: calling the streaming decode with zero available input and zero
available output on a non-terminal session pauses (NeedsMoreInput or
NeedsMoreOutput) and leaves the decoder state, cursors and counters
unchanged; a subsequent call with nonzero input and output resources makes
forward progress (consumes input or produces output). -/
theorem brotliDecompressStream_idle_pause (st : BrotliState) (input : List Nat) (s : Nat)
    (h : terminalPhase st.phase = false) :
    BrotliDecompressStream st [] 0 = (st, ⟨st.phase, 0, [], .needsMoreInput⟩) ∧
    ((BrotliDecompressStream st [] 0).2.result = .needsMoreInput ∨
     (BrotliDecompressStream st [] 0).2.result = .needsMoreOutput) ∧
    (input ≠ [] → 0 < s →
      0 < (BrotliDecompressStream st input s).2.consumed ∨
      0 < (BrotliDecompressStream st input s).2.output.length) := by
  have h0 : BrotliDecompressStream st [] 0 = (st, ⟨st.phase, 0, [], .needsMoreInput⟩) := by
    simp [BrotliDecompressStream, h, run_empty st.phase 0 h]
  refine ⟨h0, Or.inl (by rw [h0]), ?_⟩
  intro hi hs
  left
  simp only [BrotliDecompressStream, h, Bool.false_eq_true, if_false]
  exact run_progress st.phase input s h hi hs

theorem brotliDecompressStream_idle_pause_witness :
    terminalPhase (BrotliState.mk .blockHeader).phase = false ∧
    ([3] : List Nat) ≠ [] ∧ (0 : Nat) < 1 ∧
    (BrotliDecompressStream ⟨.blockHeader⟩ [] 0 =
      (⟨.blockHeader⟩, ⟨.blockHeader, 0, [], .needsMoreInput⟩)) ∧
    (0 < (BrotliDecompressStream ⟨.blockHeader⟩ [3] 1).2.consumed ∨
     0 < (BrotliDecompressStream ⟨.blockHeader⟩ [3] 1).2.output.length) :=
  ⟨by decide, by decide, by decide,
   (brotliDecompressStream_idle_pause ⟨.blockHeader⟩ [3] 1 (by decide)).1,
   (brotliDecompressStream_idle_pause ⟨.blockHeader⟩ [3] 1 (by decide)).2.2 (by decide) (by decide)⟩

/-- C5: once a session is in a terminal state (Error after a decoding error,
or Done after final Success), it never leaves it: every further call on a
session in the Error state returns the same Error result with the state
unchanged, and a call on any terminal session reports Error, never Success
or a pause with new progress. -/
theorem brotliDecompressStream_terminal_absorbs (input : List Nat) (s : Nat) (st : BrotliState)
    (h : terminalPhase st.phase = true) :
    BrotliDecompressStream ⟨.error⟩ input s = (⟨.error⟩, ⟨.error, 0, [], .error⟩) ∧
    (BrotliDecompressStream st input s).2.result = .error ∧
    (BrotliDecompressStream st input s).2.consumed = 0 ∧
    (BrotliDecompressStream st input s).2.output = [] ∧
    (BrotliDecompressStream st input s).1 = st := by
  refine ⟨by simp [BrotliDecompressStream, terminalPhase], ?_, ?_, ?_, ?_⟩ <;>
    simp [BrotliDecompressStream, h]

theorem brotliDecompressStream_terminal_absorbs_witness :
    terminalPhase (BrotliState.mk .error).phase = true ∧
    (BrotliDecompressStream ⟨.error⟩ [3] 1 = (⟨.error⟩, ⟨.error, 0, [], .error⟩) ∧
     (BrotliDecompressStream ⟨.error⟩ [3] 1).2.result = .error ∧
     (BrotliDecompressStream ⟨.error⟩ [3] 1).2.consumed = 0 ∧
     (BrotliDecompressStream ⟨.error⟩ [3] 1).2.output = [] ∧
     (BrotliDecompressStream ⟨.error⟩ [3] 1).1 = ⟨.error⟩) :=
  ⟨by decide, brotliDecompressStream_terminal_absorbs [3] 1 ⟨.error⟩ (by decide)⟩

/-- C6: a copy command whose distance exceeds both the window-addressable
range min(bytes produced, window capacity) and the static dictionary's
addressable range fails with InvalidDistance; a zero-length copy fails with
InvalidLength, a zero-distance copy fails with InvalidDistance, and a copy
is only ever executed (validation succeeds) when its length and distance are
non-zero and the distance is within the window-plus-dictionary range. -/
theorem validateCopy_spec (d l produced cap dict : Nat) :
    (0 < l → min produced cap + dict < d →
      validateCopy d l produced cap dict = .error .invalidDistance) ∧
    (l = 0 → validateCopy d l produced cap dict = .error .invalidLength) ∧
    (0 < l → validateCopy 0 l produced cap dict = .error .invalidDistance) ∧
    (validateCopy d l produced cap dict = .ok () →
      0 < l ∧ 0 < d ∧ d ≤ min produced cap + dict) := by
  unfold validateCopy
  refine ⟨?_, ?_, ?_, ?_⟩
  · intro hl hd
    split_ifs with h1 h2 h3 <;> first | rfl | (exfalso; omega)
  · intro hl
    split_ifs with h1 h2 h3 <;> first | rfl | (exfalso; omega)
  · intro hl
    split_ifs with h1 h2 h3 <;> first | rfl | (exfalso; omega)
  · intro hok
    split_ifs at hok with h1 h2 h3 <;>
      first
        | exact ⟨by omega, by omega, by omega⟩
        | simp at hok

theorem validateCopy_spec_witness :
    (0 : Nat) < 2 ∧ min 5 10 + 3 < 9 ∧
    validateCopy 9 2 5 10 3 = .error .invalidDistance ∧
    validateCopy 0 2 5 10 3 = .error .invalidDistance ∧
    validateCopy 9 0 5 10 3 = .error .invalidLength :=
  ⟨by decide, by decide,
   (validateCopy_spec 9 2 5 10 3).1 (by decide) (by decide),
   (validateCopy_spec 0 2 5 10 3).2.2.1 (by decide),
   (validateCopy_spec 9 0 5 10 3).2.1 (by decide)⟩

/-- C10: BrotliCreateState requires the allocation and free hooks to be both
null or both non-null (creation fails on a mixed pair); with both null it
succeeds using the default allocators, and with both non-null every
allocation the engine performs goes through the supplied allocation function
and every free through the supplied free function, with the caller's opaque
parameter passed to each call of either. -/
theorem brotliCreateState_allocators (a f u : Nat) (h : DecoderHandle) (sizes : List Nat)
    (call : AllocCall) (ptrs : List Nat) (fcall : FreeCall) :
    ((BrotliCreateState a f u).isSome ↔ ((a = 0 ∧ f = 0) ∨ (a ≠ 0 ∧ f ≠ 0))) ∧
    (BrotliCreateState 0 0 u = some ⟨defaultAllocId, defaultFreeId, u⟩) ∧
    (a ≠ 0 → f ≠ 0 → BrotliCreateState a f u = some h →
      call ∈ handleAllocs h sizes → call.funcId = a ∧ call.userData = u) ∧
    (a ≠ 0 → f ≠ 0 → BrotliCreateState a f u = some h →
      fcall ∈ handleFrees h ptrs → fcall.funcId = f ∧ fcall.userData = u) := by
  refine ⟨?_, ?_, ?_, ?_⟩
  · unfold BrotliCreateState
    split_ifs <;> simp_all
  · unfold BrotliCreateState
    simp
  · intro ha hf hcreate hmem
    have hh : h = ⟨a, f, u⟩ := by
      unfold BrotliCreateState at hcreate
      split_ifs at hcreate <;> simp_all
    obtain ⟨size, _, rfl⟩ := List.mem_map.mp hmem
    simp [handleAlloc, hh]
  · intro ha hf hcreate hmem
    have hh : h = ⟨a, f, u⟩ := by
      unfold BrotliCreateState at hcreate
      split_ifs at hcreate <;> simp_all
    obtain ⟨ptr, _, rfl⟩ := List.mem_map.mp hmem
    simp [handleFree, hh]

theorem brotliCreateState_allocators_witness :
    (5 : Nat) ≠ 0 ∧ (7 : Nat) ≠ 0 ∧
    BrotliCreateState 5 7 9 = some ⟨5, 7, 9⟩ ∧
    (⟨5, 9, 4⟩ : AllocCall) ∈ handleAllocs ⟨5, 7, 9⟩ [4] ∧
    (⟨7, 9, 11⟩ : FreeCall) ∈ handleFrees ⟨5, 7, 9⟩ [11] ∧
    ((⟨5, 9, 4⟩ : AllocCall).funcId = 5 ∧ (⟨5, 9, 4⟩ : AllocCall).userData = 9) ∧
    ((⟨7, 9, 11⟩ : FreeCall).funcId = 7 ∧ (⟨7, 9, 11⟩ : FreeCall).userData = 9) :=
  ⟨by decide, by decide, by decide, by decide, by decide,
   (brotliCreateState_allocators 5 7 9 ⟨5, 7, 9⟩ [4] ⟨5, 9, 4⟩ [11] ⟨7, 9, 11⟩).2.2.1
     (by decide) (by decide) (by decide) (by decide),
   (brotliCreateState_allocators 5 7 9 ⟨5, 7, 9⟩ [4] ⟨5, 9, 4⟩ [11] ⟨7, 9, 11⟩).2.2.2
     (by decide) (by decide) (by decide) (by decide)⟩

/-- A call to the streaming entry point never consumes more than the input
made available. -/
theorem brotliDecompressStream_consumed_le (st : BrotliState) (input : List Nat) (s : Nat) :
    (BrotliDecompressStream st input s).2.consumed ≤ input.length := by
  by_cases ht : terminalPhase st.phase <;> simp [BrotliDecompressStream, ht]
  exact run_consumed_le_length st.phase input s

/-- A call to the streaming entry point never produces more than the output
space made available. -/
theorem brotliDecompressStream_output_le (st : BrotliState) (input : List Nat) (s : Nat) :
    (BrotliDecompressStream st input s).2.output.length ≤ s := by
  by_cases ht : terminalPhase st.phase <;> simp [BrotliDecompressStream, ht]
  exact run_output_le_space st.phase input s

/-- C2: on return from a BrotliDecompressStream call, available_in has
decreased by exactly the bytes consumed and next_in advanced by the same
amount, available_out decreased by exactly the bytes produced with next_out
advanced by the same amount, consumption is bounded by the input available
at entry and production by the output space at entry, and total_out grows by
exactly the bytes produced this call, accumulating the decoded size across
calls. -/
theorem brotliDecompressStreamCall_cursor_arithmetic (buf : List Nat) (cur : StreamCursors)
    (st : BrotliState) :
    let t := (BrotliDecompressStream st ((buf.drop cur.next_in).take cur.available_in)
        cur.available_out).2
    let res := BrotliDecompressStreamCall buf cur st
    res.1.available_in = cur.available_in - t.consumed ∧
    res.1.next_in = cur.next_in + t.consumed ∧
    t.consumed ≤ cur.available_in ∧
    res.1.available_out = cur.available_out - t.output.length ∧
    res.1.next_out = cur.next_out + t.output.length ∧
    t.output.length ≤ cur.available_out ∧
    res.1.total_out = cur.total_out + t.output.length ∧
    res.2.2.1 = t.output ∧
    res.2.2.2 = t.result := by
  intro t res
  refine ⟨rfl, rfl, ?_, rfl, rfl, ?_, rfl, rfl, rfl⟩
  · exact le_trans (brotliDecompressStream_consumed_le st _ cur.available_out)
      (by simp [List.length_take])
  · exact brotliDecompressStream_output_le st _ cur.available_out

/-- The encoded stream is never shorter than the data it carries (framing
only adds bytes). -/
theorem encode_length (data : List Nat) : data.length ≤ (encode data).length := by
  induction data using encode.induct with
  | case1 data h =>
    obtain rfl : data = [] := by simpa [List.isEmpty_iff] using h
    simp
  | case2 data h1 h2 =>
    have e : encode data = 1 :: data.length % 256 :: data.length / 256 :: data := by
      rw [encode]; simp [h1, h2]
    rw [e]; simp only [List.length_cons]; omega
  | case3 data h1 h2 ih =>
    have e : encode data = 0 :: 255 :: 255 :: (data.take 65535 ++ encode (data.drop 65535)) := by
      rw [encode]; simp [h1, h2]
    rw [e]
    simp only [List.length_cons, List.length_append, List.length_take]
    simp only [List.length_drop] at ih
    omega

/-- C3: for any byte sequence, compressing it with the conforming modelled
encoder and decoding the compressed bytes through the streaming entry point
reproduces the original bytes exactly, for every split of the compressed
stream into N consecutive pieces fed across successive calls: the
concatenated output of the chunked calls equals the output of a single call
on the whole buffer, which equals the original data. -/
theorem brotli_roundtrip_chunked (data : List Nat) (pieces : List (List Nat))
    (hne : pieces ≠ []) (hsplit : pieces.flatten = encode data) :
    decodeChunks ⟨.blockHeader⟩ pieces = (⟨.done⟩, data, .success) ∧
    BrotliDecompressStream ⟨.blockHeader⟩ (encode data) (encode data).length =
      (⟨.done⟩, ⟨.done, (encode data).length, data, .success⟩) := by
  have hdec := decode_encode data (encode data).length (encode_length data)
  constructor
  · apply decodeChunks_success pieces .blockHeader data rfl
    rw [hsplit]
    exact hdec
  · simp [BrotliDecompressStream, terminalPhase, hdec]

theorem brotli_roundtrip_chunked_witness :
    ([[1, 2], [0, 10, 20]] : List (List Nat)) ≠ [] ∧
    ([[1, 2], [0, 10, 20]] : List (List Nat)).flatten = encode [10, 20] ∧
    (decodeChunks ⟨.blockHeader⟩ [[1, 2], [0, 10, 20]] = (⟨.done⟩, [10, 20], .success) ∧
     BrotliDecompressStream ⟨.blockHeader⟩ (encode [10, 20]) (encode [10, 20]).length =
       (⟨.done⟩, ⟨.done, (encode [10, 20]).length, [10, 20], .success⟩)) :=
  ⟨by decide, by rw [encode]; norm_num,
   brotli_roundtrip_chunked [10, 20] [[1, 2], [0, 10, 20]] (by decide)
     (by rw [encode]; norm_num)⟩

/-- C8: when a BrotliDecompressBufferStreaming call does not fail, it has
consumed all supplied input, so the remaining input counter is zero after
every non-error call. -/
theorem brotliDecompressBufferStreaming_consumes_all (st : BrotliState) (input : List Nat)
    (finish : Bool) (s : Nat)
    (h : (BrotliDecompressBufferStreaming st input finish s).2.result ≠ .error) :
    (BrotliDecompressBufferStreaming st input finish s).2.consumed = input.length := by
  by_cases ht : terminalPhase st.phase
  · exact absurd (by simp [BrotliDecompressBufferStreaming, BrotliDecompressStream, ht]) h
  · cases hr : (run st.phase input s).result with
    | error =>
      exact absurd
        (by simp [BrotliDecompressBufferStreaming, BrotliDecompressStream, ht, hr]) h
    | success =>
      have hc := run_success_consumed st.phase input s hr
      simp [BrotliDecompressBufferStreaming, BrotliDecompressStream, ht, hr, hc]
    | needsMoreInput =>
      cases finish with
      | true =>
        exact absurd
          (by simp [BrotliDecompressBufferStreaming, BrotliDecompressStream, ht, hr]) h
      | false =>
        have hc := run_nmi_consumed st.phase input s hr
        simp [BrotliDecompressBufferStreaming, BrotliDecompressStream, ht, hr, hc]
    | needsMoreOutput =>
      exact absurd
        (by simp [BrotliDecompressBufferStreaming, BrotliDecompressStream, ht, hr]) h

theorem brotliDecompressBufferStreaming_consumes_all_witness :
    (BrotliDecompressBufferStreaming ⟨.blockHeader⟩ [3] true 0).2.result ≠ .error ∧
    (BrotliDecompressBufferStreaming ⟨.blockHeader⟩ [3] true 0).2.consumed =
      ([3] : List Nat).length :=
  ⟨by decide,
   brotliDecompressBufferStreaming_consumes_all ⟨.blockHeader⟩ [3] true 0 (by decide)⟩

/-- The deprecated buffer-streaming wrapper can only report failure, success,
or (only when finish was not set) a request for more input. -/
theorem bufferStreaming_result_cases (st : BrotliState) (input : List Nat) (finish : Bool)
    (s : Nat) :
    (BrotliDecompressBufferStreaming st input finish s).2.result = .error ∨
    (BrotliDecompressBufferStreaming st input finish s).2.result = .success ∨
    ((BrotliDecompressBufferStreaming st input finish s).2.result = .needsMoreInput ∧
      finish = false) := by
  by_cases ht : terminalPhase st.phase
  · left; simp [BrotliDecompressBufferStreaming, BrotliDecompressStream, ht]
  · cases hr : (run st.phase input s).result with
    | error => left; simp [BrotliDecompressBufferStreaming, BrotliDecompressStream, ht, hr]
    | success =>
      right; left; simp [BrotliDecompressBufferStreaming, BrotliDecompressStream, ht, hr]
    | needsMoreInput =>
      cases finish with
      | true =>
        left; simp [BrotliDecompressBufferStreaming, BrotliDecompressStream, ht, hr]
      | false =>
        right; right
        exact ⟨by simp [BrotliDecompressBufferStreaming, BrotliDecompressStream, ht, hr], rfl⟩
    | needsMoreOutput =>
      left; simp [BrotliDecompressBufferStreaming, BrotliDecompressStream, ht, hr]

/-- C9: a BrotliDecompressStreaming call returns only the integer codes 0
(failure), 1 (success and done) or 2 (needs more input); a call with
finish = 1 never returns 2, so 2 can only come from a call with finish = 0;
and after any call returning 0 or 1, or any call with finish = 1, no
further calls on that session are permitted. -/
theorem brotliDecompressStreaming_finish_semantics (sess : StreamingSession)
    (input : List Nat) (finish : Bool) :
    ((BrotliDecompressStreaming sess input finish).2.2 = 0 ∨
     (BrotliDecompressStreaming sess input finish).2.2 = 1 ∨
     (BrotliDecompressStreaming sess input finish).2.2 = 2) ∧
    (finish = true →
      (BrotliDecompressStreaming sess input finish).2.2 = 0 ∨
      (BrotliDecompressStreaming sess input finish).2.2 = 1) ∧
    ((BrotliDecompressStreaming sess input finish).2.2 = 2 → finish = false) ∧
    ((finish = true ∨ (BrotliDecompressStreaming sess input finish).2.2 = 0 ∨
      (BrotliDecompressStreaming sess input finish).2.2 = 1) →
      (BrotliDecompressStreaming sess input finish).1.allowed = false) := by
  by_cases ha : sess.allowed
  · rcases bufferStreaming_result_cases sess.state input finish input.length with
      hr | hr | ⟨hr, hf⟩
    · simp [BrotliDecompressStreaming, ha, hr, resultCode]
    · simp [BrotliDecompressStreaming, ha, hr, resultCode]
    · subst hf
      simp [BrotliDecompressStreaming, ha, hr, resultCode]
  · simp [BrotliDecompressStreaming, ha]

theorem brotliDecompressStreaming_finish_semantics_witness :
    ((true : Bool) = true) ∧
    ((BrotliDecompressStreaming ⟨⟨.blockHeader⟩, true⟩ [3] true).2.2 = 0 ∨
     (BrotliDecompressStreaming ⟨⟨.blockHeader⟩, true⟩ [3] true).2.2 = 1) ∧
    (BrotliDecompressStreaming ⟨⟨.blockHeader⟩, true⟩ [3] true).1.allowed = false :=
  ⟨rfl,
   (brotliDecompressStreaming_finish_semantics ⟨⟨.blockHeader⟩, true⟩ [3] true).2.1 rfl,
   (brotliDecompressStreaming_finish_semantics ⟨⟨.blockHeader⟩, true⟩ [3] true).2.2.2
     (Or.inl rfl)⟩

/-- Every encoded stream of non-empty data is at least four bytes long
(header byte, two length bytes, at least one payload byte). -/
theorem encode_ge4 (x : List Nat) (hx : x ≠ []) : 4 ≤ (encode x).length := by
  rw [encode]
  split_ifs with h1 h2
  · exact absurd (List.isEmpty_iff.mp h1) hx
  · simp only [List.length_cons]
    have : 0 < x.length := List.length_pos.mpr hx
    omega
  · simp only [List.length_cons, List.length_append, List.length_take]
    omega

/-- C7: BrotliDecompressedSize succeeds and reports the declared decompressed
size exactly for the supported stream shapes: it is sound (whenever it
reports n, fully decoding the stream succeeds and produces exactly n bytes),
it succeeds on a single (empty-last or uncompressed-last) meta-block and on
an uncompressed meta-block followed by an empty last one, and it fails on a
stream of any other shape such as a multi-block encoded stream. -/
theorem brotliDecompressedSize_spec (encoded : List Nat) (n lo hi : Nat)
    (body data : List Nat) :
    (BrotliDecompressedSize encoded = some n →
      (run .blockHeader encoded n).result = .success ∧
      (run .blockHeader encoded n).output.length = n) ∧
    (lo + 256 * hi ≠ 0 → body.length = lo + 256 * hi →
      BrotliDecompressedSize (1 :: lo :: hi :: body) = some body.length) ∧
    (lo + 256 * hi ≠ 0 → body.length = lo + 256 * hi →
      BrotliDecompressedSize (0 :: lo :: hi :: (body ++ [3])) = some body.length) ∧
    BrotliDecompressedSize [3] = some 0 ∧
    (65535 < data.length → BrotliDecompressedSize (encode data) = none) := by
  refine ⟨?_, ?_, ?_, rfl, ?_⟩
  · intro h
    unfold BrotliDecompressedSize at h
    split at h
    · -- encoded = [3]
      obtain rfl : n = 0 := by simpa using h.symm
      simp [run, consume1]
    · -- encoded = 1 :: lo' :: hi' :: body'
      rename_i lo' hi' body'
      split_ifs at h with hcond
      obtain ⟨hne, hlen⟩ := hcond
      obtain rfl : n = lo' + 256 * hi' := by simpa using h.symm
      obtain ⟨m, hm⟩ : ∃ m, lo' + 256 * hi' = m + 1 :=
        ⟨lo' + 256 * hi' - 1, by omega⟩
      have hchunk : body'.length = m + 1 := by omega
      have hc := run_copy_chunk body' true [] (lo' + 256 * hi') m hchunk (by omega)
      rw [List.append_nil] at hc
      rw [hm] at hc
      simp only [run, hm]
      rw [hc]
      simp [run, emit, consume1, hlen, hm, hchunk]
    · -- encoded = 0 :: lo' :: hi' :: rest
      rename_i lo' hi' rest
      split_ifs at h with hcond
      obtain ⟨hne, hlen, hdrop⟩ := hcond
      obtain rfl : n = lo' + 256 * hi' := by simpa using h.symm
      obtain ⟨A, hA⟩ : ∃ A, A = rest.take (lo' + 256 * hi') := ⟨_, rfl⟩
      have htake : A.length = lo' + 256 * hi' := by
        rw [hA]; simp [List.length_take]; omega
      have hrest : rest = A ++ [3] := by
        rw [hA]
        conv_lhs => rw [← List.take_append_drop (lo' + 256 * hi') rest]
        rw [hdrop]
      obtain ⟨m, hm⟩ : ∃ m, lo' + 256 * hi' = m + 1 :=
        ⟨lo' + 256 * hi' - 1, by omega⟩
      have hchunk : A.length = m + 1 := by omega
      have hc := run_copy_chunk A false [3] (lo' + 256 * hi') m hchunk (by omega)
      rw [htake, hm] at hc
      simp only [run, hm]
      rw [hrest, hc]
      simp [run, emit, consume1, htake, hm, hchunk]
    · simp at h
  · intro hne hlen
    simp only [BrotliDecompressedSize]
    rw [if_pos ⟨hne, hlen⟩, hlen]
  · intro hne hlen
    simp only [BrotliDecompressedSize]
    rw [if_pos ⟨hne, by simp [hlen], by simp [← hlen]⟩, hlen]
  · intro hbig
    have hdata : data ≠ [] := by
      intro hd
      rw [hd] at hbig
      simp at hbig
    have hdrop : data.drop 65535 ≠ [] := by
      have : (data.drop 65535).length = data.length - 65535 := List.length_drop _ _
      intro hd
      rw [hd] at this
      simp at this
      omega
    have h4 := encode_ge4 (data.drop 65535) hdrop
    have h1 : ¬ data.isEmpty = true := by simp [List.isEmpty_iff, hdata]
    have h2 : ¬ data.length ≤ 65535 := by omega
    have e : encode data = 0 :: 255 :: 255 :: (data.take 65535 ++ encode (data.drop 65535)) := by
      rw [encode]; simp [h1, h2]
    rw [e]
    simp only [BrotliDecompressedSize]
    rw [if_neg]
    intro hcond
    obtain ⟨-, hl, -⟩ := hcond
    simp only [List.length_append, List.length_take] at hl
    omega

theorem brotliDecompressedSize_spec_witness :
    BrotliDecompressedSize [1, 1, 0, 7] = some 1 ∧
    ((run .blockHeader [1, 1, 0, 7] 1).result = .success ∧
     (run .blockHeader [1, 1, 0, 7] 1).output.length = 1) ∧
    ((1 : Nat) + 256 * 0 ≠ 0) ∧ (([7] : List Nat).length = 1 + 256 * 0) ∧
    BrotliDecompressedSize (1 :: 1 :: 0 :: [7]) = some ([7] : List Nat).length ∧
    BrotliDecompressedSize (0 :: 1 :: 0 :: ([7] ++ [3])) = some ([7] : List Nat).length ∧
    BrotliDecompressedSize [3] = some 0 ∧
    (65535 < (List.replicate 65536 (0 : Nat)).length) ∧
    BrotliDecompressedSize (encode (List.replicate 65536 0)) = none :=
  ⟨by decide,
   (brotliDecompressedSize_spec [1, 1, 0, 7] 1 1 0 [7] (List.replicate 65536 0)).1
     (by decide),
   by decide, by decide,
   (brotliDecompressedSize_spec [1, 1, 0, 7] 1 1 0 [7] (List.replicate 65536 0)).2.1
     (by decide) (by decide),
   (brotliDecompressedSize_spec [1, 1, 0, 7] 1 1 0 [7] (List.replicate 65536 0)).2.2.1
     (by decide) (by decide),
   (brotliDecompressedSize_spec [1, 1, 0, 7] 1 1 0 [7] (List.replicate 65536 0)).2.2.2.1,
   by rw [List.length_replicate]; norm_num,
   (brotliDecompressedSize_spec [1, 1, 0, 7] 1 1 0 [7] (List.replicate 65536 0)).2.2.2.2
     (by rw [List.length_replicate]; norm_num)⟩
